import Mathlib

/-!
Shallow embedding of the quantlib epsilon-tunnel rewriting pipeline:

* `src/editing/editing/fake2true/epstunnels/remover/finder.py`
  (`EpsTunnelRemoverFinder`)
* `src/newediting/editing/faketotrue/epstunnels/epstunnelremover.py`
  (`EpsTunnelRemover`)
* `src/editing/editing/fake2true/epstunnels/simplifier/applier.py`
  (`EpsTunnelConstructApplier`)
* `src/algorithms/pact/pact_ops.py` (`PACTUnsignedAct`)

Tensors of quantisation step sizes (`eps_in`, `eps_out`) are modelled as
lists of rationals; within one `EpsTunnel` module the two tensors always
share one shape ("two scalar-or-per-channel tensors"), so the broadcast
comparison `torch.all(a == b)` is list equality and
`torch.all(a == 1.0)` is "every element equals 1".

`torch.fx` graphs are modelled as a list of nodes together with an
association list of owned submodules keyed by target name.  A node records
its opcode, its target and the ordered list of the ids of its argument
nodes; the `users` edge set of `torch.fx` is derived from the argument
lists, which keeps the bidirectional edge consistency of the substrate by
construction.  Python `assert` failures are modelled with `Except`.
-/

namespace QuantLib

/-- Opcode classification of the `torch.fx` substrate
(`FXOpcodeClasses.PLACEHOLDER / CALL_MODULE / OUTPUT`). -/
inductive Opcode where
  | placeholder
  | call_module
  | output
  | other
  deriving DecidableEq, Repr

/-- A `torch.fx` node: opcode, target name and the ordered list of the ids
of its argument nodes (an argument may appear several times). -/
structure Node where
  id : Nat
  op : Opcode
  target : String
  args : List Nat
  deriving DecidableEq, Repr

/-- `fx.Node.all_input_nodes`: the deduplicated list of argument nodes. -/
def Node.all_input_nodes (n : Node) : List Nat :=
  n.args.dedup

/-- `EpsTunnel` module (`quantlib.editing.graphs.nn.EpsTunnel`): holds the
quantisation step sizes entering (`eps_in`) and leaving (`eps_out`) the
tunnel. -/
structure EpsTunnelMod where
  eps_in : List ℚ
  eps_out : List ℚ
  deriving DecidableEq, Repr

/-- A submodule owned by the graph: either an `EpsTunnel` or some other
`nn.Module` (whose contents the rewriting passes never inspect). -/
inductive Module where
  | epstunnel (m : EpsTunnelMod)
  | other
  deriving DecidableEq, Repr

/-- A traced `fx.GraphModule`: the graph's nodes plus the owned submodules
keyed by target name. -/
structure FxGraph where
  nodes : List Node
  modules : List (String × Module)
  deriving DecidableEq, Repr

/-- `g.get_submodule(target)`: resolve a target name to the owned
submodule. -/
def FxGraph.get_submodule (g : FxGraph) (target : String) : Option Module :=
  (g.modules.find? (fun p => p.1 == target)).map Prod.snd

/-- Look a node up by id. -/
def FxGraph.node? (g : FxGraph) (i : Nat) : Option Node :=
  g.nodes.find? (fun n => n.id == i)

/-- `n.users` as a list of nodes: the nodes having `n` among their
arguments (each user appears once since the graph's node list enumerates
every node once). -/
def FxGraph.users (g : FxGraph) (n : Node) : List Node :=
  g.nodes.filter (fun m => n.id ∈ m.args)

/-- `dn.replace_input_with(n, un)` of the graph substrate: every argument
reference of the node with id `dnId` that points to `old` is redirected to
`new`. -/
def FxGraph.replace_input_with (g : FxGraph) (dnId old new : Nat) : FxGraph :=
  { g with nodes := g.nodes.map (fun m =>
      if m.id = dnId then
        { m with args := m.args.map (fun i => if i = old then new else i) }
      else m) }

/-- `g.delete_submodule(target)` of the graph substrate: drop the owned
submodule registered under `target`. -/
def FxGraph.delete_submodule (g : FxGraph) (target : String) : FxGraph :=
  { g with modules := g.modules.filter (fun p => !(p.1 == target)) }

/-- `g.graph.erase_node(n)` of the graph substrate: remove the node from
the graph's node list. -/
def FxGraph.erase_node (g : FxGraph) (nId : Nat) : FxGraph :=
  { g with nodes := g.nodes.filter (fun m => !(m.id == nId)) }

/-- `isinstance(g.get_submodule(n.target), EpsTunnel)`. -/
def isEpsTunnelNode (g : FxGraph) (n : Node) : Bool :=
  match g.get_submodule n.target with
  | some (Module.epstunnel _) => true
  | _ => false

/-- Project the `EpsTunnel` submodule targeted by a node, when there is
one. -/
def epsTunnelOf (g : FxGraph) (n : Node) : Option EpsTunnelMod :=
  match g.get_submodule n.target with
  | some (Module.epstunnel m) => some m
  | _ => none

namespace EpsTunnelRemoverFinder

/-- `EpsTunnelRemoverFinder.is_identity_epstunnel`:
`torch.all(m.eps_in == m.eps_out)` for the targeted tunnel (the two
tensors share one shape, so the elementwise comparison is list equality).
`find` only ever applies this to nodes whose target resolves to an
`EpsTunnel`; on any other node the value is irrelevant and modelled as
`false`. -/
def is_identity_epstunnel (g : FxGraph) (n : Node) : Bool :=
  match epsTunnelOf g n with
  | some m => m.eps_in == m.eps_out
  | none => false

/-- `EpsTunnelRemoverFinder.is_integerised_placeholder`: asserts that the
node has exactly one input node (modelled as `Except`), then checks that
this predecessor is a placeholder and that `torch.all(m.eps_out == 1.0)`.
A predecessor id always resolves inside a traced graph; the `Opcode.other`
default for a dangling id is never reached on well-formed graphs. -/
def is_integerised_placeholder (g : FxGraph) (n : Node) : Except Unit Bool :=
  if h : n.all_input_nodes.length = 1 then
    let predecessor := n.all_input_nodes.head (by
      intro hnil
      simp [hnil] at h)
    let predOp := match g.node? predecessor with
      | some p => p.op
      | none => Opcode.other
    let m? := epsTunnelOf g n
    .ok (predOp == Opcode.placeholder &&
      (match m? with
        | some m => m.eps_out.all (fun x => x == (1 : ℚ))
        | none => false))
  else
    .error ()

/-- `EpsTunnelRemoverFinder.is_output_node`: returns `False` exactly when
the node's sole user is the graph output (despite its name it acts as the
"keep this candidate" filter). -/
def is_output_node (g : FxGraph) (n : Node) : Bool :=
  let users := g.users n
  match users with
  | [u] => if u.op == Opcode.output then false else true
  | _ => true

/-- Monadic filter evaluating `is_integerised_placeholder` over the
materialised candidate list, propagating the first assertion failure, as
forcing `list(integerisedplhl)` does. -/
def filterIntegerised (g : FxGraph) : List Node → Except Unit (List Node)
  | [] => .ok []
  | n :: ns =>
      match is_integerised_placeholder g n with
      | .error e => .error e
      | .ok b =>
          match filterIntegerised g ns with
          | .error e => .error e
          | .ok rest => if b then .ok (n :: rest) else .ok rest

/-- `EpsTunnelRemoverFinder.find`, returning the underlying nodes of the
`EpsTunnelNode` application points: materialise the `EpsTunnel`
call-module nodes, filter by the two selection predicates over that same
list, deduplicate (`list(set(...))`), and drop candidates whose sole user
is the output node. -/
def find (g : FxGraph) : Except Unit (List Node) :=
  let module_nodes := g.nodes.filter (fun n => n.op == Opcode.call_module)
  let epstunnels := module_nodes.filter (fun n => isEpsTunnelNode g n)
  let identitytunnels := epstunnels.filter (fun n => is_identity_epstunnel g n)
  match filterIntegerised g epstunnels with
  | .error e => .error e
  | .ok integerisedplhl =>
      let ls := (identitytunnels ++ integerisedplhl).dedup
      let not_output_node := ls.filter (fun n => is_output_node g n)
      .ok not_output_node

/-- `find` with the graph state threaded explicitly.  The body of the
source's `find` invokes only read-only substrate operations (node
iteration, `get_submodule`, edge reads) and none of the mutation
primitives (`replace_input_with`, `delete_submodule`, `erase_node`,
`set_eps_in`, `set_eps_out`), so the post-state returned alongside the
application points is the input graph itself. -/
def find_state (g : FxGraph) : Except Unit (FxGraph × List Node) :=
  match find g with
  | .error e => .error e
  | .ok l => .ok (g, l)

/-- `EpsTunnelRemoverFinder.check_aps_commutativity`:
`len(aps) == len(set(map(lambda ap: ap.node, aps)))`, here applied to the
underlying nodes of the application points. -/
def check_aps_commutativity (aps : List Node) : Bool :=
  aps.length == aps.dedup.length

end EpsTunnelRemoverFinder

/-- The materialised list of `EpsTunnel` call-module nodes of a graph (the
`epstunnels` list in `EpsTunnelRemoverFinder.find`). -/
def epsTunnelNodes (g : FxGraph) : List Node :=
  (g.nodes.filter (fun n => n.op == Opcode.call_module)).filter
    (fun n => isEpsTunnelNode g n)

namespace EpsTunnelRemover

/-- `EpsTunnelRemover.find(g)` (the `newediting` rewriter): with
`force = True` every `EpsTunnel` call-module node is an application point;
with `force = False` only those whose `_eps_in` and `_eps_out` tensors are
elementwise equal (`torch.all(... == ...)`, list equality since the two
tensors share one shape).  The returned `ApplicationPoint`s are
represented by their `apcore` nodes. -/
def find (force : Bool) (g : FxGraph) : List Node :=
  if force then
    g.nodes.filter (fun n =>
      n.op == Opcode.call_module && isEpsTunnelNode g n)
  else
    g.nodes.filter (fun n =>
      n.op == Opcode.call_module && isEpsTunnelNode g n &&
      (match epsTunnelOf g n with
        | some m => m.eps_in == m.eps_out
        | none => false))

/-- `EpsTunnelRemover._check_aps`: the body is `pass` (a TODO remains in
the source), so the check always succeeds whatever the application points
are. -/
def check_aps (_g : FxGraph) (_aps : List Node) : Except Unit Unit :=
  .ok ()

/-- `EpsTunnelRemover._apply(g, ap)`: take the set of the tunnel node's
input nodes and assert it is a singleton `{un}`, take the set of its users
and assert it is a singleton `{dn}`, rewire `dn`'s references from the
tunnel to `un`, delete the tunnel's submodule and erase the node.  The
asserts precede every mutation, so a failure (`.error`) carries the
untouched input graph. -/
def apply (g : FxGraph) (n : Node) : Except FxGraph FxGraph :=
  let upstream_nodes := n.all_input_nodes
  if hu : upstream_nodes.length = 1 then
    let un := upstream_nodes.head (by
      intro hnil
      simp [hnil] at hu)
    let downstream_nodes := (g.users n).dedup
    if hd : downstream_nodes.length = 1 then
      let dn := downstream_nodes.head (by
        intro hnil
        simp [hnil] at hd)
      let g1 := FxGraph.replace_input_with g dn.id n.id un
      let g2 := FxGraph.delete_submodule g1 n.target
      let g3 := FxGraph.erase_node g2 n.id
      .ok g3
    else
      .error g
  else
    .error g

end EpsTunnelRemover

/-- A construct application point (`CandidateEpsTunnelConstruct`): the
boundary tunnels entering (`backward`) and exiting (`forward`) an
integer-valued sub-region. -/
structure CandidateEpsTunnelConstruct where
  backward : List Node
  forward : List Node
  deriving DecidableEq, Repr

/-- Modelled from the spec: `EpsTunnel.set_eps_out(value)` of the
scale-tracking module interface (the `EpsTunnel` class itself is outside
the provided sources) — a writable-tensor mutator replacing `eps_out`. -/
def Module.set_eps_out (m : Module) (v : List ℚ) : Module :=
  match m with
  | Module.epstunnel t => Module.epstunnel { t with eps_out := v }
  | Module.other => Module.other

/-- Modelled from the spec: `EpsTunnel.set_eps_in(value)` of the
scale-tracking module interface (the `EpsTunnel` class itself is outside
the provided sources) — a writable-tensor mutator replacing `eps_in`. -/
def Module.set_eps_in (m : Module) (v : List ℚ) : Module :=
  match m with
  | Module.epstunnel t => Module.epstunnel { t with eps_in := v }
  | Module.other => Module.other

/-- Apply an in-place update to the submodule registered under `target`
(Python mutates the module object that `get_submodule` resolves to). -/
def FxGraph.update_submodule (g : FxGraph) (target : String)
    (f : Module → Module) : FxGraph :=
  { g with modules := g.modules.map (fun p =>
      if p.1 == target then (p.1, f p.2) else p) }

/-- `torch.ones_like(t)` on a 1-d tensor: an all-ones list of the same
length. -/
def onesLike (t : List ℚ) : List ℚ :=
  List.replicate t.length 1

namespace EpsTunnelConstructApplier

/-- `m.set_eps_out(torch.ones_like(m.eps_out))` as a module transformer
(a non-tunnel module is left unchanged, as the claims only concern tunnel
modules). -/
def outOnes (m : Module) : Module :=
  match m with
  | Module.epstunnel t => Module.set_eps_out m (onesLike t.eps_out)
  | Module.other => m

/-- `m.set_eps_in(torch.ones_like(m.eps_in))` as a module transformer. -/
def inOnes (m : Module) : Module :=
  match m with
  | Module.epstunnel t => Module.set_eps_in m (onesLike t.eps_in)
  | Module.other => m

/-- `m.set_eps_out(torch.ones_like(m.eps_out))` on the module targeted by
one inbound node. -/
def integeriseOut (g : FxGraph) (n : Node) : FxGraph :=
  FxGraph.update_submodule g n.target outOnes

/-- `m.set_eps_in(torch.ones_like(m.eps_in))` on the module targeted by
one outbound node. -/
def integeriseIn (g : FxGraph) (n : Node) : FxGraph :=
  FxGraph.update_submodule g n.target inOnes

/-- `EpsTunnelConstructApplier._apply(g, ap)`: set `eps_out := 1` on every
tunnel targeted from `ap.backward`, then `eps_in := 1` on every tunnel
targeted from `ap.forward`.  The `print` loops of the source are
non-functional diagnostics and touch neither the graph nor the modules. -/
def apply (g : FxGraph) (ap : CandidateEpsTunnelConstruct) : FxGraph :=
  let g1 := ap.backward.foldl integeriseOut g
  ap.forward.foldl integeriseIn g1

end EpsTunnelConstructApplier

/-! PACT activation (`src/algorithms/pact/pact_ops.py`).  Tensors are
again lists of rationals; the exact floating-point values of the
statistics are irrelevant to the claims, and `torch.std(x)**2` is the
(Bessel-corrected) variance, which is rational. -/

/-- `assert_param_valid(module, value, param_name, valid_values)`:
asserts `value in valid_values` with a descriptive message. -/
def assert_param_valid (value : String) (param_name : String)
    (valid_values : List String) : Except String Unit :=
  if valid_values.contains value then .ok ()
  else .error ("Invalid argument " ++ param_name ++ ": Got " ++ value)

/-- The state of a `PACTUnsignedAct` module after construction. -/
structure PACTUnsignedAct where
  n_levels : ℚ
  clip_hi : List ℚ
  act_kind : String
  init_clip : String
  nb_std : ℚ
  leaky : ℚ
  started : Bool
  max : List ℚ
  min : List ℚ
  running_mean : List ℚ
  running_var : List ℚ
  deriving DecidableEq, Repr

namespace PACTUnsignedAct

/-- `PACTUnsignedAct.__init__`: lower-case `act_kind` and `init_clip`,
validate them against their enumerated sets, then initialise the fields
(`clip_hi = (1.,)`, statistics zeroed, `running_var = (1.,)`,
`started = False`).  `learn_clip` only sets `requires_grad` on the
parameter tensor and does not influence any claim. -/
def init (n_levels : ℚ) (init_clip : String) (_learn_clip : Bool)
    (act_kind : String) (leaky : ℚ) (nb_std : ℚ) :
    Except String PACTUnsignedAct :=
  match assert_param_valid act_kind.toLower "act_kind" ["relu", "relu6", "leaky_relu"] with
  | .error e => .error e
  | .ok () =>
  match assert_param_valid init_clip.toLower "init_clip" ["max", "std", "const"] with
  | .error e => .error e
  | .ok () =>
  .ok { n_levels := n_levels
        clip_hi := [1]
        act_kind := act_kind.toLower
        init_clip := init_clip.toLower
        nb_std := nb_std
        leaky := leaky
        started := false
        max := [0]
        min := [0]
        running_mean := [0]
        running_var := [1] }

/-- `torch.max` over a 1-d tensor (tensors reaching the statistics code
are non-empty; the default for `[]` is never used there). -/
def tmax (x : List ℚ) : ℚ :=
  x.foldl Max.max (x.head?.getD 0)

/-- `torch.min` over a 1-d tensor. -/
def tmin (x : List ℚ) : ℚ :=
  x.foldl Min.min (x.head?.getD 0)

/-- `torch.mean` over a 1-d tensor. -/
def tmean (x : List ℚ) : ℚ :=
  x.sum / (x.length : ℚ)

/-- `torch.std(x)**2`: the Bessel-corrected sample variance. -/
def tvar (x : List ℚ) : ℚ :=
  ((x.map (fun v => (v - tmean x) ^ 2)).sum) / ((x.length : ℚ) - 1)

/-- `PACTUnsignedAct.get_eps`: `clip_hi / (n_levels - 1)`. -/
def get_eps (m : PACTUnsignedAct) : List ℚ :=
  m.clip_hi.map (fun v => v / (m.n_levels - 1))

/-- `PACTUnsignedAct.forward`: in statistics mode (`not started`) apply
the activation selected by `act_kind` and fold the batch statistics into
`max`/`min`/`running_mean`/`running_var`; in quantised mode delegate to
the external numeric kernel `PACTQuantize` (a consumed black box per the
spec's scope, supplied here as the function argument `quantize` applied
to the input, the eps and the clipping bound).  The returned pair is the
updated module state and the output tensor. -/
def forward (quantize : List ℚ → List ℚ → List ℚ → List ℚ)
    (m : PACTUnsignedAct) (x : List ℚ) : PACTUnsignedAct × List ℚ :=
  if !m.started then
    let x :=
      if m.act_kind == "relu" then x.map (fun v => Max.max v 0)
      else if m.act_kind == "relu6" then x.map (fun v => Min.min (Max.max v 0) 6)
      else if m.act_kind == "leaky_relu" then
        x.map (fun v => if v < 0 then m.leaky * v else v)
      else x
    let cur_max := tmax x
    let cur_min := tmin x
    let m := { m with
      max := m.max.map (fun v => Max.max v cur_max)
      min := m.min.map (fun v => Min.min v cur_min)
      running_mean := m.running_mean.map
        (fun v => (9 / 10 : ℚ) * v + (1 / 10 : ℚ) * tmean x)
      running_var := m.running_var.map
        (fun v => (9 / 10 : ℚ) * v + (1 / 10 : ℚ) * tvar x) }
    (m, x)
  else
    (m, quantize x (get_eps m) m.clip_hi)

/-- `forward` with its failure behaviour made explicit: the source's
`forward` contains no `assert` (in particular no `assert_param_valid`),
so the embedding never signals an error. -/
def forwardE (quantize : List ℚ → List ℚ → List ℚ → List ℚ)
    (m : PACTUnsignedAct) (x : List ℚ) :
    Except String (PACTUnsignedAct × List ℚ) :=
  .ok (forward quantize m x)

end PACTUnsignedAct

/-! Concrete graphs used to instantiate and to refute claims. -/

/-- A graph input (placeholder) node. -/
def nPl : Node := ⟨0, Opcode.placeholder, "x", []⟩

/-- An `EpsTunnel` call-module node fed by the placeholder. -/
def nT : Node := ⟨1, Opcode.call_module, "t", [0]⟩

/-- An output node directly consuming the tunnel. -/
def nOut : Node := ⟨2, Opcode.output, "out", [1]⟩

/-- `input -> TunnelA(eps_in=2, eps_out=2) -> output`: an identity tunnel
whose sole consumer is the graph output. -/
def gOut : FxGraph :=
  ⟨[nPl, nT, nOut], [("t", Module.epstunnel ⟨[2], [2]⟩)]⟩

/-- An activation call-module node consuming the tunnel. -/
def nAct : Node := ⟨2, Opcode.call_module, "act", [1]⟩

/-- An output node consuming the activation. -/
def nOut2 : Node := ⟨3, Opcode.output, "out", [2]⟩

/-- `input -> TunnelB(eps_in=2, eps_out=2) -> act -> output`: an identity
tunnel that is not output-adjacent. -/
def gRelu : FxGraph :=
  ⟨[nPl, nT, nAct, nOut2],
   [("t", Module.epstunnel ⟨[2], [2]⟩), ("act", Module.other)]⟩

/-- A graph holding one non-identity tunnel `t` with
`eps_in = 2, eps_out = 3`. -/
def gC : FxGraph :=
  ⟨[nPl, nT, nOut], [("t", Module.epstunnel ⟨[2], [3]⟩)]⟩

/-- A construct application point whose `backward` and `forward` sets
overlap on the tunnel node `nT`. -/
def apOverlap : CandidateEpsTunnelConstruct := ⟨[nT], [nT]⟩

/-- A second `EpsTunnel` call-module node with target `u`. -/
def nU : Node := ⟨4, Opcode.call_module, "u", [1]⟩

/-- A graph with two tunnels `t` (`eps = 2/3`) and `u` (`eps = 5/7`). -/
def gW : FxGraph :=
  ⟨[nPl, nT, nU],
   [("t", Module.epstunnel ⟨[2], [3]⟩), ("u", Module.epstunnel ⟨[5], [7]⟩)]⟩

/-- A construct application point with disjoint boundary targets:
`backward = {t}`, `forward = {u}`. -/
def apDisjoint : CandidateEpsTunnelConstruct := ⟨[nT], [nU]⟩

/-! Helper lemmas. -/

/-- A list has the same length as its deduplication exactly when it has no
duplicates. -/
lemma length_eq_dedup_length_iff {α : Type} [DecidableEq α] (l : List α) :
    l.length = l.dedup.length ↔ l.Nodup := by
  constructor
  · intro h
    have hs : l.dedup.Sublist l := List.dedup_sublist l
    have he : l.dedup = l := hs.eq_of_length h.symm
    rw [← he]
    exact List.nodup_dedup l
  · intro h
    rw [List.dedup_eq_self.mpr h]

/-- `assert_param_valid` succeeds exactly when the value lies in the
enumerated valid set. -/
lemma assert_param_valid_ok_iff (v p : String) (l : List String) :
    (∃ u, assert_param_valid v p l = .ok u) ↔ l.contains v = true := by
  unfold assert_param_valid
  split
  · next h => exact iff_of_true ⟨(), rfl⟩ h
  · next h => exact iff_of_false (by rintro ⟨u, hu⟩; cases hu) h

/-- `isEpsTunnelNode` holds exactly when the node's target resolves to an
`EpsTunnel` submodule. -/
lemma isEpsTunnelNode_iff (g : FxGraph) (n : Node) :
    isEpsTunnelNode g n = true ↔ ∃ m, epsTunnelOf g n = some m := by
  unfold isEpsTunnelNode epsTunnelOf
  cases g.get_submodule n.target with
  | none => simp
  | some md => cases md <;> simp

/-- The integerised-placeholder predicate evaluates without failure on a
node with exactly one input node. -/
lemma is_integerised_placeholder_ok (g : FxGraph) (n : Node)
    (h : n.all_input_nodes.length = 1) :
    ∃ b, EpsTunnelRemoverFinder.is_integerised_placeholder g n = .ok b := by
  unfold EpsTunnelRemoverFinder.is_integerised_placeholder
  rw [dif_pos h]
  exact ⟨_, rfl⟩

/-- The integerised-placeholder predicate fails its assertion on a node
whose number of input nodes differs from one. -/
lemma is_integerised_placeholder_error (g : FxGraph) (n : Node)
    (h : n.all_input_nodes.length ≠ 1) :
    EpsTunnelRemoverFinder.is_integerised_placeholder g n = .error () := by
  unfold EpsTunnelRemoverFinder.is_integerised_placeholder
  rw [dif_neg h]

/-- When every listed node has exactly one input node, the integerised
filter succeeds and keeps exactly the nodes satisfying the predicate. -/
lemma filterIntegerised_ok_of_arity (g : FxGraph) (l : List Node)
    (h : ∀ n ∈ l, n.all_input_nodes.length = 1) :
    ∃ rest, EpsTunnelRemoverFinder.filterIntegerised g l = .ok rest ∧
      ∀ n, n ∈ rest ↔ n ∈ l ∧
        EpsTunnelRemoverFinder.is_integerised_placeholder g n = .ok true := by
  induction l with
  | nil =>
      refine ⟨[], rfl, ?_⟩
      simp
  | cons a l ih =>
      obtain ⟨rest, hrest, hmem⟩ := ih (fun n hn => h n (List.mem_cons_of_mem _ hn))
      obtain ⟨b, hb⟩ := is_integerised_placeholder_ok g a (h a (List.mem_cons_self _ _))
      cases b with
      | false =>
          refine ⟨rest, ?_, ?_⟩
          · unfold EpsTunnelRemoverFinder.filterIntegerised
            rw [hb, hrest]
            rfl
          · intro n
            rw [hmem n, List.mem_cons]
            constructor
            · rintro ⟨hn, hp⟩
              exact ⟨Or.inr hn, hp⟩
            · rintro ⟨hn | hn, hp⟩
              · subst hn
                rw [hb] at hp
                cases hp
              · exact ⟨hn, hp⟩
      | true =>
          refine ⟨a :: rest, ?_, ?_⟩
          · unfold EpsTunnelRemoverFinder.filterIntegerised
            rw [hb, hrest]
            rfl
          · intro n
            rw [List.mem_cons, hmem n, List.mem_cons]
            constructor
            · rintro (rfl | ⟨hn, hp⟩)
              · exact ⟨Or.inl rfl, hb⟩
              · exact ⟨Or.inr hn, hp⟩
            · rintro ⟨hn | hn, hp⟩
              · exact Or.inl hn
              · exact Or.inr ⟨hn, hp⟩

/-- The integerised filter fails exactly when some listed node has a
number of input nodes different from one. -/
lemma filterIntegerised_error_iff (g : FxGraph) (l : List Node) :
    EpsTunnelRemoverFinder.filterIntegerised g l = .error () ↔
      ∃ n ∈ l, n.all_input_nodes.length ≠ 1 := by
  constructor
  · intro herr
    by_contra hno
    push_neg at hno
    obtain ⟨rest, hrest, -⟩ := filterIntegerised_ok_of_arity g l hno
    rw [hrest] at herr
    cases herr
  · rintro ⟨n, hn, hbad⟩
    induction l with
    | nil => cases hn
    | cons a l ih =>
        unfold EpsTunnelRemoverFinder.filterIntegerised
        rcases List.mem_cons.mp hn with rfl | hn'
        · rw [is_integerised_placeholder_error g n hbad]
        · cases ha : EpsTunnelRemoverFinder.is_integerised_placeholder g a with
          | error e =>
              cases e
              rfl
          | ok b =>
              rw [ih hn']

/-- Membership in the materialised `EpsTunnel` call-module node list. -/
lemma mem_epsTunnelNodes (g : FxGraph) (n : Node) :
    n ∈ epsTunnelNodes g ↔
      n ∈ g.nodes ∧ n.op = Opcode.call_module ∧ isEpsTunnelNode g n = true := by
  simp only [epsTunnelNodes, List.mem_filter, beq_iff_eq, and_assoc]

/-- `find` unfolded to its filter pipeline over `epsTunnelNodes`. -/
lemma find_eq (g : FxGraph) :
    EpsTunnelRemoverFinder.find g =
      match EpsTunnelRemoverFinder.filterIntegerised g (epsTunnelNodes g) with
      | .error e => .error e
      | .ok integerisedplhl =>
          .ok (((((epsTunnelNodes g).filter
              (fun n => EpsTunnelRemoverFinder.is_identity_epstunnel g n)) ++
                integerisedplhl).dedup).filter
                  (fun n => EpsTunnelRemoverFinder.is_output_node g n)) := rfl

/-! Claim theorems. -/

/-- C3 (amended): the batch check `check_aps_commutativity` succeeds iff
the number of application points equals the number of distinct underlying
nodes (equivalently, iff no node is referenced twice); the `newediting`
`EpsTunnelRemover._check_aps`, by contrast, is a no-op that succeeds on
every input. -/
theorem claim3_overlap_check (aps : List Node) :
    (EpsTunnelRemoverFinder.check_aps_commutativity aps = true ↔
      aps.length = aps.dedup.length) ∧
    (EpsTunnelRemoverFinder.check_aps_commutativity aps = true ↔ aps.Nodup) ∧
    (∀ g, EpsTunnelRemover.check_aps g aps = .ok ()) := by
  refine ⟨?_, ?_, fun g => rfl⟩
  · simp [EpsTunnelRemoverFinder.check_aps_commutativity]
  · simp [EpsTunnelRemoverFinder.check_aps_commutativity,
      length_eq_dedup_length_iff]

/-- C3 counterexample: two application points referencing the same node.
`check_aps_commutativity` rejects the batch, but the claim also asserts
the failure for `EpsTunnelRemover._check_aps`, which accepts it (its body
is `pass`). -/
theorem claim3_counterexample :
    EpsTunnelRemover.check_aps gOut [nT, nT] = .ok () ∧
    EpsTunnelRemoverFinder.check_aps_commutativity [nT, nT] = false := by
  exact ⟨rfl, by decide⟩

/-- C6: `EpsTunnelRemover._apply` raises exactly when the tunnel node's
number of distinct input nodes or number of distinct consumers differs
from 1, and every failure returns before any mutation, carrying the
untouched graph. -/
theorem claim6_apply_error_iff (g : FxGraph) (n : Node) :
    (EpsTunnelRemover.apply g n = .error g ∨
      (EpsTunnelRemover.apply g n).isOk = true) ∧
    ((EpsTunnelRemover.apply g n).isOk = true ↔
      (n.all_input_nodes.length = 1 ∧ ((g.users n).dedup).length = 1)) := by
  by_cases hu : n.all_input_nodes.length = 1
  · by_cases hd : ((g.users n).dedup).length = 1
    · refine ⟨Or.inr ?_, ?_⟩ <;>
        simp [EpsTunnelRemover.apply, hu, hd, Except.isOk, Except.toBool]
    · refine ⟨Or.inl ?_, ?_⟩ <;>
        simp [EpsTunnelRemover.apply, hu, hd, Except.isOk, Except.toBool]
  · refine ⟨Or.inl ?_, ?_⟩ <;>
      simp [EpsTunnelRemover.apply, hu, Except.isOk, Except.toBool]


/-- C7: in conservative mode (`force = False`) `EpsTunnelRemover.find`
returns exactly the call-module nodes targeting an `EpsTunnel` whose
`eps_in` equals `eps_out` elementwise, while in force mode it returns
every call-module node targeting an `EpsTunnel`. -/
theorem claim7_force_modes (g : FxGraph) (n : Node) :
    (n ∈ EpsTunnelRemover.find true g ↔
      n ∈ g.nodes ∧ n.op = Opcode.call_module ∧ isEpsTunnelNode g n = true) ∧
    (n ∈ EpsTunnelRemover.find false g ↔
      n ∈ g.nodes ∧ n.op = Opcode.call_module ∧
        ∃ m, epsTunnelOf g n = some m ∧ m.eps_in = m.eps_out) := by
  constructor
  · simp [EpsTunnelRemover.find, List.mem_filter, and_assoc]
  · simp only [EpsTunnelRemover.find, if_neg (Bool.false_ne_true),
      Bool.false_eq_true, if_false, List.mem_filter, Bool.and_eq_true, beq_iff_eq]
    cases hm : epsTunnelOf g n with
    | none => simp [isEpsTunnelNode_iff, hm, and_assoc]
    | some m =>
        have ht : isEpsTunnelNode g n = true := (isEpsTunnelNode_iff g n).mpr ⟨m, hm⟩
        simp [hm, ht, and_assoc]

/-- C8: constructing `PACTUnsignedAct` succeeds exactly when the
lower-cased `act_kind` lies in `{relu, relu6, leaky_relu}` and the
lower-cased `init_clip` lies in `{max, std, const}`; `forward` contains
no argument-validity check and never signals an error. -/
theorem claim8_constructor_validation
    (n_levels : ℚ) (init_clip : String) (learn_clip : Bool)
    (act_kind : String) (leaky nb_std : ℚ) :
    ((∃ m, PACTUnsignedAct.init n_levels init_clip learn_clip act_kind
        leaky nb_std = .ok m) ↔
      (["relu", "relu6", "leaky_relu"].contains act_kind.toLower = true ∧
        ["max", "std", "const"].contains init_clip.toLower = true)) ∧
    (∀ quantize m x, PACTUnsignedAct.forwardE quantize m x =
        .ok (PACTUnsignedAct.forward quantize m x)) := by
  refine ⟨?_, fun quantize m x => rfl⟩
  constructor
  · rintro ⟨m, hm⟩
    unfold PACTUnsignedAct.init at hm
    cases h1 : assert_param_valid act_kind.toLower "act_kind"
        ["relu", "relu6", "leaky_relu"] with
    | error e => rw [h1] at hm; exact absurd hm (by simp)
    | ok u =>
      cases u
      rw [h1] at hm
      cases h2 : assert_param_valid init_clip.toLower "init_clip"
          ["max", "std", "const"] with
      | error e => rw [h2] at hm; exact absurd hm (by simp)
      | ok u =>
        cases u
        exact ⟨(assert_param_valid_ok_iff _ _ _).mp ⟨(), h1⟩,
          (assert_param_valid_ok_iff _ _ _).mp ⟨(), h2⟩⟩
  · rintro ⟨h1, h2⟩
    obtain ⟨u1, hu1⟩ := (assert_param_valid_ok_iff act_kind.toLower "act_kind"
      ["relu", "relu6", "leaky_relu"]).mpr h1
    obtain ⟨u2, hu2⟩ := (assert_param_valid_ok_iff init_clip.toLower "init_clip"
      ["max", "std", "const"]).mpr h2
    cases u1
    cases u2
    have hinit : PACTUnsignedAct.init n_levels init_clip learn_clip act_kind
        leaky nb_std = .ok
          { n_levels := n_levels
            clip_hi := [1]
            act_kind := act_kind.toLower
            init_clip := init_clip.toLower
            nb_std := nb_std
            leaky := leaky
            started := false
            max := [0]
            min := [0]
            running_mean := [0]
            running_var := [1] } := by
      unfold PACTUnsignedAct.init
      rw [hu1, hu2]
    exact ⟨_, hinit⟩

/-- C10: `EpsTunnelRemoverFinder.find` fails (the assertion inside
`is_integerised_placeholder`) exactly when the graph holds an `EpsTunnel`
call-module node whose number of input nodes differs from one; such a
node is never skipped or excluded. -/
theorem claim10_find_raises_iff (g : FxGraph) :
    EpsTunnelRemoverFinder.find g = .error () ↔
      ∃ n ∈ g.nodes, n.op = Opcode.call_module ∧ isEpsTunnelNode g n = true ∧
        n.all_input_nodes.length ≠ 1 := by
  rw [find_eq]
  cases hf : EpsTunnelRemoverFinder.filterIntegerised g (epsTunnelNodes g) with
  | error e =>
      cases e
      have hex := (filterIntegerised_error_iff g (epsTunnelNodes g)).mp hf
      refine iff_of_true rfl ?_
      obtain ⟨n, hn, hbad⟩ := hex
      obtain ⟨hg, hop, htun⟩ := (mem_epsTunnelNodes g n).mp hn
      exact ⟨n, hg, hop, htun, hbad⟩
  | ok l =>
      refine iff_of_false (by simp) ?_
      rintro ⟨n, hg, hop, htun, hbad⟩
      have herr := (filterIntegerised_error_iff g (epsTunnelNodes g)).mpr
        ⟨n, (mem_epsTunnelNodes g n).mpr ⟨hg, hop, htun⟩, hbad⟩
      rw [herr] at hf
      cases hf

/-- C1 (amended): under the precondition that every `EpsTunnel`
call-module node has exactly one input node, `find` returns each such
node satisfying the identity-tunnel or the integerised-placeholder
predicate **and whose sole consumer is not the graph output** exactly
once (both predicate filters run over the same materialised list, and the
result is duplicate-free). -/
theorem claim1_amended_find_characterisation (g : FxGraph)
    (h : ∀ n ∈ g.nodes, n.op = Opcode.call_module →
      isEpsTunnelNode g n = true → n.all_input_nodes.length = 1) :
    ∃ l, EpsTunnelRemoverFinder.find g = .ok l ∧ l.Nodup ∧
      ∀ n, n ∈ l ↔
        (n ∈ g.nodes ∧ n.op = Opcode.call_module ∧ isEpsTunnelNode g n = true ∧
          (EpsTunnelRemoverFinder.is_identity_epstunnel g n = true ∨
            EpsTunnelRemoverFinder.is_integerised_placeholder g n = .ok true) ∧
          EpsTunnelRemoverFinder.is_output_node g n = true) := by
  have harity : ∀ n ∈ epsTunnelNodes g, n.all_input_nodes.length = 1 := by
    intro n hn
    obtain ⟨hg, hop, htun⟩ := (mem_epsTunnelNodes g n).mp hn
    exact h n hg hop htun
  obtain ⟨rest, hrest, hmem⟩ := filterIntegerised_ok_of_arity g (epsTunnelNodes g) harity
  refine ⟨(((epsTunnelNodes g).filter
      (fun n => EpsTunnelRemoverFinder.is_identity_epstunnel g n) ++
        rest).dedup).filter
          (fun n => EpsTunnelRemoverFinder.is_output_node g n), ?_, ?_, ?_⟩
  · rw [find_eq, hrest]
  · exact List.Nodup.filter _ (List.nodup_dedup _)
  · intro n
    rw [List.mem_filter, List.mem_dedup, List.mem_append, List.mem_filter,
      hmem n, mem_epsTunnelNodes]
    constructor
    · rintro ⟨⟨⟨hg, hop, htun⟩, hid⟩ | ⟨⟨hg, hop, htun⟩, hph⟩, hout⟩
      · exact ⟨hg, hop, htun, Or.inl hid, hout⟩
      · exact ⟨hg, hop, htun, Or.inr hph, hout⟩
    · rintro ⟨hg, hop, htun, hid | hph, hout⟩
      · exact ⟨Or.inl ⟨⟨hg, hop, htun⟩, hid⟩, hout⟩
      · exact ⟨Or.inr ⟨⟨hg, hop, htun⟩, hph⟩, hout⟩

/-- C1 witness: on `input -> TunnelB(2,2) -> act -> output` the
precondition holds and the characterisation applies. -/
theorem claim1_witness :
    (∀ n ∈ gRelu.nodes, n.op = Opcode.call_module →
      isEpsTunnelNode gRelu n = true → n.all_input_nodes.length = 1) ∧
    (∃ l, EpsTunnelRemoverFinder.find gRelu = .ok l ∧ l.Nodup ∧
      ∀ n, n ∈ l ↔
        (n ∈ gRelu.nodes ∧ n.op = Opcode.call_module ∧
          isEpsTunnelNode gRelu n = true ∧
          (EpsTunnelRemoverFinder.is_identity_epstunnel gRelu n = true ∨
            EpsTunnelRemoverFinder.is_integerised_placeholder gRelu n = .ok true) ∧
          EpsTunnelRemoverFinder.is_output_node gRelu n = true)) :=
  ⟨by decide, claim1_amended_find_characterisation gRelu (by decide)⟩

/-- C1 counterexample: in `input -> TunnelA(2,2) -> output` the tunnel
node is an `EpsTunnel` call-module satisfying the identity-tunnel
predicate, yet `find` returns no application point for it (the claim
omits the output-adjacency exclusion). -/
theorem claim1_counterexample :
    EpsTunnelRemoverFinder.find gOut = .ok [] ∧
    nT ∈ gOut.nodes ∧ nT.op = Opcode.call_module ∧
    isEpsTunnelNode gOut nT = true ∧
    EpsTunnelRemoverFinder.is_identity_epstunnel gOut nT = true := by
  refine ⟨rfl, ?_, rfl, rfl, rfl⟩
  decide

/-- C2 (amended): no application point returned by
`EpsTunnelRemoverFinder.find` references a tunnel whose sole consumer is
the graph output; the `newediting` `EpsTunnelRemover.find` performs no
such exclusion (see the counterexample). -/
theorem claim2_finder_excludes_output_adjacent (g : FxGraph) (l : List Node)
    (hfind : EpsTunnelRemoverFinder.find g = .ok l) :
    ∀ n ∈ l, ∀ o, g.users n = [o] → o.op ≠ Opcode.output := by
  rw [find_eq] at hfind
  cases hf : EpsTunnelRemoverFinder.filterIntegerised g (epsTunnelNodes g) with
  | error e =>
      rw [hf] at hfind
      cases hfind
  | ok rest =>
      rw [hf] at hfind
      have hl : (((((epsTunnelNodes g).filter
          (fun n => EpsTunnelRemoverFinder.is_identity_epstunnel g n)) ++
            rest).dedup).filter
              (fun n => EpsTunnelRemoverFinder.is_output_node g n)) = l := by
        injection hfind
      intro n hn o ho hop
      rw [← hl] at hn
      have hpred := (List.mem_filter.mp hn).2
      unfold EpsTunnelRemoverFinder.is_output_node at hpred
      rw [ho] at hpred
      simp [hop] at hpred

/-- C2 witness: on `input -> TunnelB(2,2) -> act -> output` the finder
selects the tunnel, whose sole consumer is the activation, not the
output. -/
theorem claim2_witness : nAct.op ≠ Opcode.output :=
  claim2_finder_excludes_output_adjacent gRelu [nT] (by rfl) nT
    (by decide) nAct (by decide)

/-- C2 counterexample: on `input -> TunnelA(2,2) -> output` the
`newediting` `EpsTunnelRemover.find` (in force mode and in non-force
mode) returns the tunnel node although its sole consumer is the graph
output. -/
theorem claim2_counterexample :
    nT ∈ EpsTunnelRemover.find true gOut ∧
    nT ∈ EpsTunnelRemover.find false gOut ∧
    gOut.users nT = [nOut] ∧ nOut.op = Opcode.output := by
  decide

/-- C9: a successful `find` leaves the graph's nodes, edges and every
submodule (hence every tunnel's `eps_in`/`eps_out`) unchanged, and
re-running it on the unmodified graph returns the same application
points. -/
theorem claim9_find_pure (g g' : FxGraph) (l : List Node)
    (h : EpsTunnelRemoverFinder.find_state g = .ok (g', l)) :
    g'.nodes = g.nodes ∧ g'.modules = g.modules ∧
    (∀ n, epsTunnelOf g' n = epsTunnelOf g n) ∧
    EpsTunnelRemoverFinder.find_state g' = .ok (g', l) := by
  unfold EpsTunnelRemoverFinder.find_state at h ⊢
  cases hf : EpsTunnelRemoverFinder.find g with
  | error e =>
      rw [hf] at h
      cases h
  | ok l0 =>
      rw [hf] at h
      injection h with h1
      injection h1 with hg hl
      subst hg
      subst hl
      exact ⟨rfl, rfl, fun n => rfl, by rw [hf]⟩

/-- C9 witness: instantiated on `input -> TunnelB(2,2) -> act -> output`,
where `find` succeeds returning the tunnel node. -/
theorem claim9_witness :
    gRelu.nodes = gRelu.nodes ∧ gRelu.modules = gRelu.modules ∧
    (∀ n, epsTunnelOf gRelu n = epsTunnelOf gRelu n) ∧
    EpsTunnelRemoverFinder.find_state gRelu = .ok (gRelu, [nT]) :=
  claim9_find_pure gRelu gRelu [nT] (by rfl)

/-- Removing the node with a given id from a duplicate-free node list
shortens it by exactly one. -/
lemma length_filter_ne_of_mem (l : List Node) (n : Node)
    (hids : (l.map Node.id).Nodup) (hn : n ∈ l) :
    (l.filter (fun m => !(m.id == n.id))).length + 1 = l.length := by
  induction l with
  | nil => cases hn
  | cons a l ih =>
      rw [List.map_cons, List.nodup_cons] at hids
      rcases List.mem_cons.mp hn with rfl | hn'
      · rw [List.filter_cons_of_neg (by simp)]
        have hrest : l.filter (fun m => !(m.id == n.id)) = l := by
          apply List.filter_eq_self.mpr
          intro m hm
          have hne : m.id ≠ n.id := by
            intro heq
            exact hids.1 (heq ▸ List.mem_map_of_mem Node.id hm)
          simp [hne]
        rw [hrest, List.length_cons]
      · have hane : a.id ≠ n.id := by
          intro heq
          exact hids.1 (heq ▸ List.mem_map_of_mem Node.id hn')
        rw [List.filter_cons_of_pos (by simp [hane]), List.length_cons,
          List.length_cons]
        have := ih hids.2 hn'
        omega

/-- `_apply` on a tunnel node with unique predecessor and unique consumer
computes the splice pipeline
(`replace_input_with`, `delete_submodule`, `erase_node`). -/
lemma apply_eq_splice (g : FxGraph) (n : Node) (unId : Nat) (dn : Node)
    (hu : n.all_input_nodes = [unId]) (hd : (g.users n).dedup = [dn]) :
    EpsTunnelRemover.apply g n = .ok
      (FxGraph.erase_node (FxGraph.delete_submodule
        (FxGraph.replace_input_with g dn.id n.id unId) n.target) n.id) := by
  unfold EpsTunnelRemover.apply
  simp [hu, hd]

/-- C4: applying the tunnel remover at a tunnel node with exactly one
predecessor and exactly one consumer yields a graph with one fewer node
in which the tunnel node is gone, the consumer's argument references to
the tunnel are redirected to the predecessor, the tunnel's submodule is
deleted, no remaining node references the tunnel, and all other nodes are
unchanged. -/
theorem claim4_apply_splices_out_tunnel (g : FxGraph) (n : Node) (unId : Nat)
    (dn : Node)
    (hids : (g.nodes.map Node.id).Nodup)
    (hn : n ∈ g.nodes)
    (hself : n.id ∉ n.args)
    (hu : n.all_input_nodes = [unId])
    (hd : g.users n = [dn]) :
    ∃ g', EpsTunnelRemover.apply g n = .ok g' ∧
      g'.nodes.length + 1 = g.nodes.length ∧
      (∀ m ∈ g'.nodes, m.id ≠ n.id) ∧
      (∀ m ∈ g'.nodes, n.id ∉ m.args) ∧
      (∀ m ∈ g'.nodes, m.id = dn.id →
        m.args = dn.args.map (fun i => if i = n.id then unId else i)) ∧
      g'.get_submodule n.target = none ∧
      (∀ m ∈ g'.nodes, m.id ≠ dn.id → m ∈ g.nodes) := by
  have hdd : (g.users n).dedup = [dn] := by
    rw [hd, List.dedup_cons_of_not_mem (List.not_mem_nil dn), List.dedup_nil]
  have hdn : dn ∈ g.nodes ∧ n.id ∈ dn.args := by
    have hmem : dn ∈ g.users n := by
      rw [hd]
      exact List.mem_singleton_self dn
    have := List.mem_filter.mp hmem
    exact ⟨this.1, by simpa using this.2⟩
  have hun : unId ∈ n.args := by
    have : unId ∈ n.all_input_nodes := by
      rw [hu]
      exact List.mem_singleton_self unId
    exact List.mem_dedup.mp this
  have hunne : unId ≠ n.id := fun heq => hself (heq ▸ hun)
  refine ⟨_, apply_eq_splice g n unId dn hu hdd, ?_, ?_, ?_, ?_, ?_, ?_⟩
  · -- one fewer node
    show ((g.nodes.map (fun m =>
        if m.id = dn.id then
          { m with args := m.args.map (fun i => if i = n.id then unId else i) }
        else m)).filter (fun m => !(m.id == n.id))).length + 1 = g.nodes.length
    rw [List.filter_map]
    have hcomp : ((fun m : Node => !(m.id == n.id)) ∘ (fun m =>
        if m.id = dn.id then
          { m with args := m.args.map (fun i => if i = n.id then unId else i) }
        else m)) = fun m : Node => !(m.id == n.id) := by
      funext m
      by_cases hcase : m.id = dn.id <;> simp [hcase]
    rw [hcomp, List.length_map]
    exact length_filter_ne_of_mem g.nodes n hids hn
  · -- the tunnel node is erased
    intro m hm
    have := (List.mem_filter.mp hm).2
    simpa using this
  · -- no remaining reference to the tunnel node
    intro m hm
    obtain ⟨m0, hm0, hfm0⟩ := List.mem_map.mp (List.mem_filter.mp hm).1
    subst hfm0
    by_cases hcase : m0.id = dn.id
    · simp only [hcase, if_true]
      intro hmem
      obtain ⟨i, hi, hieq⟩ := List.mem_map.mp hmem
      by_cases hin : i = n.id
      · rw [if_pos hin] at hieq
        exact hunne hieq
      · rw [if_neg hin] at hieq
        exact hin hieq
    · simp only [hcase, if_false]
      intro hmem
      have hm0u : m0 ∈ g.users n := List.mem_filter.mpr ⟨hm0, by simpa using hmem⟩
      rw [hd] at hm0u
      exact hcase (congrArg Node.id (List.mem_singleton.mp hm0u))
  · -- the consumer's arguments are rewired to the predecessor
    intro m hm hmid
    obtain ⟨m0, hm0, hfm0⟩ := List.mem_map.mp (List.mem_filter.mp hm).1
    subst hfm0
    by_cases hcase : m0.id = dn.id
    · have hm0dn : m0 = dn :=
        List.inj_on_of_nodup_map hids hm0 hdn.1 hcase
      subst hm0dn
      simp [hcase]
    · rw [if_neg hcase] at hmid
      exact absurd hmid hcase
  · -- the tunnel's submodule is deleted
    show ((g.modules.filter (fun p => !(p.1 == n.target))).find?
        (fun p => p.1 == n.target)).map Prod.snd = none
    rw [List.find?_eq_none.mpr]
    · rfl
    · intro p hp
      have := (List.mem_filter.mp hp).2
      simpa using this
  · -- every other node is unchanged
    intro m hm hmne
    obtain ⟨m0, hm0, hfm0⟩ := List.mem_map.mp (List.mem_filter.mp hm).1
    subst hfm0
    by_cases hcase : m0.id = dn.id
    · rw [if_pos hcase] at hmne ⊢
      exact absurd hcase hmne
    · rw [if_neg hcase]
      exact hm0

/-- C4 witness: on `input -> TunnelB(2,2) -> act -> output` the applier
removes the tunnel node `nT`, rewiring `nAct` to the placeholder. -/
theorem claim4_witness :
    ∃ g', EpsTunnelRemover.apply gRelu nT = .ok g' ∧
      g'.nodes.length + 1 = gRelu.nodes.length ∧
      (∀ m ∈ g'.nodes, m.id ≠ nT.id) ∧
      (∀ m ∈ g'.nodes, nT.id ∉ m.args) ∧
      (∀ m ∈ g'.nodes, m.id = nAct.id →
        m.args = nAct.args.map (fun i => if i = nT.id then 0 else i)) ∧
      g'.get_submodule nT.target = none ∧
      (∀ m ∈ g'.nodes, m.id ≠ nAct.id → m ∈ gRelu.nodes) :=
  claim4_apply_splices_out_tunnel gRelu nT 0 nAct (by decide) (by decide)
    (by decide) (by decide) (by decide)

/-- `epsTunnelOf` projects exactly the `EpsTunnel` submodules. -/
lemma epsTunnelOf_eq_some_iff (g : FxGraph) (n : Node) (t : EpsTunnelMod) :
    epsTunnelOf g n = some t ↔
      g.get_submodule n.target = some (Module.epstunnel t) := by
  unfold epsTunnelOf
  cases hm : g.get_submodule n.target with
  | none => simp
  | some md => cases md <;> simp

/-- Association-list lookup after updating the entries under key `t`,
looked up at the same key `t`. -/
lemma find_map_update_eq (l : List (String × Module)) (t : String)
    (f : Module → Module) :
    ((l.map (fun p => if p.1 == t then (p.1, f p.2) else p)).find?
        (fun p => p.1 == t)).map Prod.snd =
      (((l.find? (fun p => p.1 == t)).map Prod.snd).map f) := by
  induction l with
  | nil => rfl
  | cons a l ih =>
      by_cases ha : a.1 = t
      · have hab : (a.1 == t) = true := beq_iff_eq.mpr ha
        simp only [List.map_cons, List.find?_cons, hab, eq_self_iff_true,
          if_true]
        rfl
      · have hab : (a.1 == t) = false := beq_eq_false_iff_ne.mpr ha
        simp only [List.map_cons, List.find?_cons, hab, Bool.false_eq_true,
          if_false]
        exact ih

/-- Association-list lookup after updating the entries under key `t`,
looked up at a different key `t'`. -/
lemma find_map_update_ne (l : List (String × Module)) (t t' : String)
    (hne : t' ≠ t) (f : Module → Module) :
    (l.map (fun p => if p.1 == t then (p.1, f p.2) else p)).find?
        (fun p => p.1 == t') =
      l.find? (fun p => p.1 == t') := by
  induction l with
  | nil => rfl
  | cons a l ih =>
      by_cases ha : a.1 = t
      · have ha' : ¬(a.1 = t') := by
          rw [ha]
          exact fun h => hne h.symm
        have hab : (a.1 == t) = true := beq_iff_eq.mpr ha
        have hab' : (a.1 == t') = false := beq_eq_false_iff_ne.mpr ha'
        simp only [List.map_cons, List.find?_cons, hab, hab',
          eq_self_iff_true, if_true, Bool.false_eq_true, if_false]
        exact ih
      · have hab : (a.1 == t) = false := beq_eq_false_iff_ne.mpr ha
        by_cases ha' : a.1 = t'
        · have hab' : (a.1 == t') = true := beq_iff_eq.mpr ha'
          simp only [List.map_cons, List.find?_cons, hab, hab',
            Bool.false_eq_true, if_false]
        · have hab' : (a.1 == t') = false := beq_eq_false_iff_ne.mpr ha'
          simp only [List.map_cons, List.find?_cons, hab, hab',
            Bool.false_eq_true, if_false]
          exact ih

/-- Lookup after an in-place submodule update. -/
lemma get_submodule_update (g : FxGraph) (t t' : String) (f : Module → Module) :
    (FxGraph.update_submodule g t f).get_submodule t' =
      if t' = t then (g.get_submodule t').map f else g.get_submodule t' := by
  unfold FxGraph.update_submodule FxGraph.get_submodule
  by_cases h : t' = t
  · rw [if_pos h, h]
    exact find_map_update_eq g.modules t f
  · rw [if_neg h, find_map_update_ne g.modules t t' h f]

/-- `outOnes` is idempotent (`ones_like` of an all-ones tensor is
itself). -/
lemma outOnes_outOnes (m : Module) :
    EpsTunnelConstructApplier.outOnes (EpsTunnelConstructApplier.outOnes m) =
      EpsTunnelConstructApplier.outOnes m := by
  cases m with
  | epstunnel t =>
      simp [EpsTunnelConstructApplier.outOnes, Module.set_eps_out, onesLike]
  | other => rfl

/-- `inOnes` is idempotent. -/
lemma inOnes_inOnes (m : Module) :
    EpsTunnelConstructApplier.inOnes (EpsTunnelConstructApplier.inOnes m) =
      EpsTunnelConstructApplier.inOnes m := by
  cases m with
  | epstunnel t =>
      simp [EpsTunnelConstructApplier.inOnes, Module.set_eps_in, onesLike]
  | other => rfl

/-- The backward fold leaves the node list untouched. -/
lemma foldl_integeriseOut_nodes (l : List Node) (g : FxGraph) :
    (l.foldl EpsTunnelConstructApplier.integeriseOut g).nodes = g.nodes := by
  induction l generalizing g with
  | nil => rfl
  | cons a l ih =>
      rw [List.foldl_cons]
      exact ih (EpsTunnelConstructApplier.integeriseOut g a)

/-- The forward fold leaves the node list untouched. -/
lemma foldl_integeriseIn_nodes (l : List Node) (g : FxGraph) :
    (l.foldl EpsTunnelConstructApplier.integeriseIn g).nodes = g.nodes := by
  induction l generalizing g with
  | nil => rfl
  | cons a l ih =>
      rw [List.foldl_cons]
      exact ih (EpsTunnelConstructApplier.integeriseIn g a)

/-- Lookup after the backward fold: targets hit by some listed node are
mapped through `outOnes`, all others are unchanged. -/
lemma foldl_integeriseOut_get (l : List Node) (g : FxGraph) (t : String) :
    (l.foldl EpsTunnelConstructApplier.integeriseOut g).get_submodule t =
      if l.any (fun n => n.target == t) then
        (g.get_submodule t).map EpsTunnelConstructApplier.outOnes
      else g.get_submodule t := by
  induction l generalizing g with
  | nil => simp
  | cons a l ih =>
      rw [List.foldl_cons, ih]
      have hupd : (EpsTunnelConstructApplier.integeriseOut g a).get_submodule t =
          if t = a.target then
            (g.get_submodule t).map EpsTunnelConstructApplier.outOnes
          else g.get_submodule t :=
        get_submodule_update g a.target t _
      by_cases hat : a.target = t
      · rw [if_pos (by rw [hat]) ] at hupd
        rw [hupd]
        by_cases hl : l.any (fun n => n.target == t)
        · rw [if_pos hl, if_pos (by simp [List.any_cons, hat, hl])]
          cases g.get_submodule t <;> simp [outOnes_outOnes]
        · rw [if_neg (by simpa using hl), if_pos (by simp [List.any_cons, hat])]
      · rw [if_neg (fun h => hat h.symm)] at hupd
        rw [hupd]
        by_cases hl : l.any (fun n => n.target == t)
        · rw [if_pos hl, if_pos (by simp [List.any_cons, hl])]
        · rw [if_neg (by simpa using hl),
            if_neg (by simp [List.any_cons, hat, hl])]

/-- Lookup after the forward fold: targets hit by some listed node are
mapped through `inOnes`, all others are unchanged. -/
lemma foldl_integeriseIn_get (l : List Node) (g : FxGraph) (t : String) :
    (l.foldl EpsTunnelConstructApplier.integeriseIn g).get_submodule t =
      if l.any (fun n => n.target == t) then
        (g.get_submodule t).map EpsTunnelConstructApplier.inOnes
      else g.get_submodule t := by
  induction l generalizing g with
  | nil => simp
  | cons a l ih =>
      rw [List.foldl_cons, ih]
      have hupd : (EpsTunnelConstructApplier.integeriseIn g a).get_submodule t =
          if t = a.target then
            (g.get_submodule t).map EpsTunnelConstructApplier.inOnes
          else g.get_submodule t :=
        get_submodule_update g a.target t _
      by_cases hat : a.target = t
      · rw [if_pos (by rw [hat])] at hupd
        rw [hupd]
        by_cases hl : l.any (fun n => n.target == t)
        · rw [if_pos hl, if_pos (by simp [List.any_cons, hat, hl])]
          cases g.get_submodule t <;> simp [inOnes_inOnes]
        · rw [if_neg (by simpa using hl), if_pos (by simp [List.any_cons, hat])]
      · rw [if_neg (fun h => hat h.symm)] at hupd
        rw [hupd]
        by_cases hl : l.any (fun n => n.target == t)
        · rw [if_pos hl, if_pos (by simp [List.any_cons, hl])]
        · rw [if_neg (by simpa using hl),
            if_neg (by simp [List.any_cons, hat, hl])]

/-- C5 (amended): when no target is shared between `ap.backward` and
`ap.forward`, the construct applier sets `eps_out := 1` on every backward
tunnel (keeping its `eps_in`), sets `eps_in := 1` on every forward tunnel
(keeping its `eps_out`), and leaves the node list — hence the edge
structure — unchanged. -/
theorem claim5_amended_construct_reconciliation (g : FxGraph)
    (ap : CandidateEpsTunnelConstruct)
    (hdisj : ∀ nb ∈ ap.backward, ∀ nf ∈ ap.forward, nb.target ≠ nf.target) :
    (EpsTunnelConstructApplier.apply g ap).nodes = g.nodes ∧
    (∀ nb ∈ ap.backward, ∀ t, epsTunnelOf g nb = some t →
      epsTunnelOf (EpsTunnelConstructApplier.apply g ap) nb =
        some ⟨t.eps_in, onesLike t.eps_out⟩) ∧
    (∀ nf ∈ ap.forward, ∀ t, epsTunnelOf g nf = some t →
      epsTunnelOf (EpsTunnelConstructApplier.apply g ap) nf =
        some ⟨onesLike t.eps_in, t.eps_out⟩) := by
  refine ⟨?_, ?_, ?_⟩
  · show (ap.forward.foldl EpsTunnelConstructApplier.integeriseIn
        (ap.backward.foldl EpsTunnelConstructApplier.integeriseOut g)).nodes
      = g.nodes
    rw [foldl_integeriseIn_nodes, foldl_integeriseOut_nodes]
  · intro nb hb t ht
    rw [epsTunnelOf_eq_some_iff] at ht ⊢
    show (ap.forward.foldl EpsTunnelConstructApplier.integeriseIn
        (ap.backward.foldl EpsTunnelConstructApplier.integeriseOut
          g)).get_submodule nb.target = _
    rw [foldl_integeriseIn_get]
    have hnotfwd : ap.forward.any (fun n => n.target == nb.target) = false := by
      rw [List.any_eq_false]
      intro nf hf
      simpa using fun h => hdisj nb hb nf hf h.symm
    rw [if_neg (by simp [hnotfwd]), foldl_integeriseOut_get]
    have hback : ap.backward.any (fun n => n.target == nb.target) = true :=
      List.any_eq_true.mpr ⟨nb, hb, by simp⟩
    rw [if_pos hback, ht]
    simp [EpsTunnelConstructApplier.outOnes, Module.set_eps_out]
  · intro nf hf t ht
    rw [epsTunnelOf_eq_some_iff] at ht ⊢
    show (ap.forward.foldl EpsTunnelConstructApplier.integeriseIn
        (ap.backward.foldl EpsTunnelConstructApplier.integeriseOut
          g)).get_submodule nf.target = _
    rw [foldl_integeriseIn_get]
    have hfwd : ap.forward.any (fun n => n.target == nf.target) = true :=
      List.any_eq_true.mpr ⟨nf, hf, by simp⟩
    rw [if_pos hfwd, foldl_integeriseOut_get]
    have hnotback : ap.backward.any (fun n => n.target == nf.target) = false := by
      rw [List.any_eq_false]
      intro nb hb
      simpa using fun h => hdisj nb hb nf hf h
    rw [if_neg (by simp [hnotback]), ht]
    simp [EpsTunnelConstructApplier.inOnes, Module.set_eps_in]

/-- C5 witness: on a graph with two disjoint boundary tunnels `t`
(backward, eps 2/3) and `u` (forward, eps 5/7), the applier yields
`t -> (2, 1)` and `u -> (1, 7)` without touching the nodes. -/
theorem claim5_witness :
    (EpsTunnelConstructApplier.apply gW apDisjoint).nodes = gW.nodes ∧
    epsTunnelOf (EpsTunnelConstructApplier.apply gW apDisjoint) nT =
      some ⟨[2], onesLike [3]⟩ ∧
    epsTunnelOf (EpsTunnelConstructApplier.apply gW apDisjoint) nU =
      some ⟨onesLike [5], [7]⟩ := by
  obtain ⟨h1, h2, h3⟩ :=
    claim5_amended_construct_reconciliation gW apDisjoint (by decide)
  exact ⟨h1, h2 nT (by decide) ⟨[2], [3]⟩ (by decide),
    h3 nU (by decide) ⟨[5], [7]⟩ (by decide)⟩

/-- C5 counterexample: when a tunnel node lies in both `backward` and
`forward`, its `eps_in` does not stay unchanged (here it moves from 2 to
1), contradicting the claim's frame condition for arbitrary construct
application points. -/
theorem claim5_counterexample :
    nT ∈ apOverlap.backward ∧
    epsTunnelOf gC nT = some ⟨[2], [3]⟩ ∧
    epsTunnelOf (EpsTunnelConstructApplier.apply gC apOverlap) nT =
      some ⟨[1], [1]⟩ := by
  decide

end QuantLib
